import Mathlib

/-
Verification of the AST-to-CoffeeScript renderer and its token-synchronization
subsystem (python_to_coffeescript.py).  The Python source is shallowly embedded:

* `Tok` models the 5-tuples produced by Python's tokenize module,
  `(t1 kind, t2 val, t3 (srow, scol), t4 (erow, ecol), t5 raw_val)`;
  `kind` carries `token_module.tok_name[t1].lower()` directly.
* `make_line_tokens`, `make_blank_lines`, `make_ignored_lines`,
  `make_string_tokens`, `first_leading_line_of` embed the TokenSync
  constructor's index-building passes.
* `leading_lines_at`, `st_leading_lines`, `st_leading_string`,
  `trailing_comment`, `sync_string` embed TokenSync's query operations.
* `visit` embeds CoffeeScriptTraverser.visit with the `do_*` rules inlined as
  match arms; mutable instance state (`self.level`, `self.class_stack`, the
  watermark `first_leading_line`, the per-line string-token queues) is threaded
  through `TState`.  Diagnostic prints (`g.trace`, the do_Compare `print`) are
  modelled as entries appended to `TState.log`.
* Python string methods used by the source (`strip`, `lstrip`, `rstrip`,
  `split(',')`, `join`, `startswith('#')`) are embedded as executable
  functions over the character list of a `String`.
-/

namespace PyCs

/- Python whitespace (the characters str.strip and friends remove). -/
def isPySpace (c : Char) : Bool :=
  c == ' ' || c == '\t' || c == '\n' || c == '\r' || c == '\x0b' || c == '\x0c'

def lstripL (l : List Char) : List Char := l.dropWhile isPySpace

def rstripL : List Char → List Char
  | [] => []
  | c :: cs =>
    let r := rstripL cs
    if r.isEmpty then (if isPySpace c then [] else [c]) else c :: r

/-- Python `s.lstrip()`. -/
def pyLstrip (s : String) : String := String.mk (lstripL s.data)

/-- Python `s.rstrip()`. -/
def pyRstrip (s : String) : String := String.mk (rstripL s.data)

/-- Python `s.strip()`. -/
def pyStrip (s : String) : String := String.mk (lstripL (rstripL s.data))

/-- Python `s.startswith('#')`. -/
def startsWithHash (s : String) : Bool := s.data.head? == some '#'

/-- Python `s.split(',')` on the character list: split at every comma. -/
def splitCommaL : List Char → List (List Char)
  | [] => [[]]
  | c :: cs =>
    let r := splitCommaL cs
    if c == ',' then [] :: r
    else
      match r with
      | [] => [[c]]
      | h :: t => (c :: h) :: t

/-- Python `s.split(',')`. -/
def pySplitComma (s : String) : List String := (splitCommaL s.data).map String.mk

/-- Python `sep.join(parts)` on character lists. -/
def joinSepL (sep : List Char) : List (List Char) → List Char
  | [] => []
  | [x] => x
  | x :: xs => x ++ sep ++ joinSepL sep xs

/-- Python `sep.join(parts)`. -/
def pyJoin (sep : String) (parts : List String) : String :=
  String.mk (joinSepL sep.data (parts.map String.data))

/--
A lexical token: the 5-tuple `(t1, t2, t3, t4, t5)` of Python's tokenize
module.  `kind` is `tok_name[t1].lower()`, `val` is `t2`, `raw` is `t5`
(the raw value, which for real tokenize tokens is the physical source line),
and the positions are `t3 = (srow, scol)`, `t4 = (erow, ecol)`.
-/
structure Tok where
  kind : String
  val : String
  raw : String
  srow : Nat
  scol : Nat
  erow : Nat
  ecol : Nat
deriving Repr, DecidableEq

/-- Diagnostic messages: `print` in do_Compare and `g.trace` in sync_string
and do_Str, modelled structurally rather than as formatted text. -/
inductive LogMsg where
  | compareMismatch (ops : List String) (comparators : List String)
  | strUnderflow (lineno : Nat) (s : String)
  | strNoLineno (s : String)
deriving Repr, DecidableEq

/-- make_nl_token: a synthetic token with `'\n'` as both val and raw_val;
`t1 = token_module.NEWLINE`, so its kind name is "newline". -/
def nl_token : Tok :=
  { kind := "newline", val := "\n", raw := "\n", srow := 0, scol := 0, erow := 0, ecol := 0 }

/-- The line bucket a token is assigned to in make_line_tokens:
`erow - 1` if its kind is "string" (handles multi-line string literals),
else `srow - 1`. -/
def bucket_of (t : Tok) : Nat :=
  if t.kind == "string" then t.erow - 1 else t.srow - 1

/-- TokenSync.make_line_tokens: distribute the token stream into
`len(lines) + 1` per-line buckets (`result[line].append(token)`). -/
def make_line_tokens (lines : List String) (tokens : List Tok) : List (List Tok) :=
  tokens.foldl
    (fun result token =>
      result.set (bucket_of token) (result.getD (bucket_of token) [] ++ [token]))
    (List.replicate (lines.length + 1) [])

/-- TokenSync.make_blank_lines: the condition on one line's bucket,
`len(aList) == 1 and self.token_kind(aList[0]) == 'nl'`. -/
def is_blank_bucket : List Tok → Bool
  | [t] => t.kind == "nl"
  | _ => false

/-- TokenSync.make_blank_lines: line numbers of blank lines. -/
def make_blank_lines (line_tokens : List (List Tok)) : List Nat :=
  (line_tokens.enum.filter (fun p => is_blank_bucket p.2)).map (fun p => p.1)

/-- TokenSync.is_line_comment: a token representing a full-line comment
(kind "comment" and the raw value, lstripped, starts with `#`). -/
def is_line_comment (t : Tok) : Bool :=
  t.kind == "comment" && startsWithHash (pyLstrip t.raw)

/-- TokenSync.make_ignored_lines: per line, the first full-line-comment token
if any (the for/break), else a synthetic nl token for a blank line, else
nothing.  These are the lines returned by leading_lines. -/
def make_ignored_lines (line_tokens : List (List Tok)) (blank_lines : List Nat) :
    List (Option Tok) :=
  line_tokens.enum.map
    (fun p =>
      match p.2.find? is_line_comment with
      | some z => some z
      | none => if blank_lines.contains p.1 then some nl_token else none)

/-- The initialization of `self.first_leading_line` at the end of
make_ignored_lines: the index of the first ignored line, or the length of
the list when there is none (Python's for/else). -/
def first_leading_line_of (ig : List (Option Tok)) : Nat :=
  ig.findIdx (fun o => o.isSome)

/-- TokenSync.make_string_tokens: per-line queues holding only the string
tokens of each bucket. -/
def make_string_tokens (line_tokens : List (List Tok)) : List (List Tok) :=
  line_tokens.map (fun aList => aList.filter (fun t => t.kind == "string"))

/-- What leading_lines emits for one ignored line:
`self.token_raw_val(token).rstrip() + '\n'`. -/
def render_ignored (t : Tok) : String := pyRstrip t.raw ++ "\n"

/-- The lines collected by the while loop of leading_lines: for each index
`i` in `[w, L)`, the rendered ignored line when `self.ignored_lines[i]` holds
a token. -/
def entries_in (ig : List (Option Tok)) (w L : Nat) : List String :=
  (List.range' w (L - w)).filterMap (fun i => (ig.getD i none).map render_ignored)

/-- TokenSync.leading_lines on a node that has a lineno, as a function of the
watermark: the while loop runs `i` from the watermark up to `lineno`,
collecting ignored lines, and the watermark becomes `max w L`
(`self.first_leading_line = i` after the loop). -/
def leading_lines_at (ig : List (Option Tok)) (w L : Nat) : List String × Nat :=
  (entries_in ig w L, max w L)

/-- TokenSync.trailing_comment: scan the node's line bucket for the first
comment token whose raw value (rstripped then stripped) does not start with
`#`; return `' <text>\n'` for it, else `'\n'`.  A node without a lineno gets
`'\n'` (the source also emits a g.trace there, not modelled for this pure
query). -/
def trailing_comment (line_tokens : List (List Tok)) (lineno : Option Nat) : String :=
  match lineno with
  | some n =>
    match (line_tokens.getD (n - 1) []).find?
        (fun t => t.kind == "comment" && !startsWithHash (pyStrip (pyRstrip t.raw))) with
    | some t => " " ++ pyRstrip t.val ++ "\n"
    | none => "\n"
  | none => "\n"

/-- The fixed operator lookup table `d` of CoffeeScriptTraverser.op_name,
with each kind's exact declared spelling. -/
def opTable : List (String × String) :=
  [("Add", "+"), ("BitAnd", "&"), ("BitOr", "|"), ("BitXor", "^"),
   ("Div", "/"), ("FloorDiv", "//"), ("LShift", "<<"), ("Mod", "%"),
   ("Mult", "*"), ("Pow", "**"), ("RShift", ">>"), ("Sub", "-"),
   ("And", " and "), ("Or", " or "),
   ("Eq", "=="), ("Gt", ">"), ("GtE", ">="), ("In", " in "),
   ("Is", " is "), ("IsNot", " is not "), ("Lt", "<"), ("LtE", "<="),
   ("NotEq", "!="), ("NotIn", " not in "),
   ("AugLoad", "<AugLoad>"), ("AugStore", "<AugStore>"), ("Del", "<Del>"),
   ("Load", "<Load>"), ("Param", "<Param>"), ("Store", "<Store>"),
   ("Invert", "~"), ("Not", " not "), ("UAdd", "+"), ("USub", "-")]

/-- CoffeeScriptTraverser.op_name: `d.get(kind, '<%s>' % kind)` followed by
`if strict: assert name, kind`.  The assert raises exactly when `strict` holds
and `name` is falsy (the empty string); `none` models that AssertionError. -/
def op_name (strict : Bool) (kind : String) : Option String :=
  let name := (opTable.lookup kind).getD ("<" ++ kind ++ ">")
  if strict && name == "" then none else some name

/-- The print name op_name actually produces (the lookup with its bracketed
default), used by the rendering rules; `op_name_never_fails` shows the
strict assert can never fire, so this is the value `op_name` returns at
every call site. -/
def op_name_str (kind : String) : String :=
  (opTable.lookup kind).getD ("<" ++ kind ++ ">")

/-- The AST fragment the renderer's claims exercise.  Nodes carry exactly the
fields the corresponding `do_*` rules read; statement nodes carry their
1-based source line number.  `Str`'s lineno is optional because do_Str guards
on `hasattr(node, 'lineno')`.  Function parameters appear both as Python-2
style expression nodes (`Name`) and Python-3 `ast.arg` nodes (`Arg`), as
handled by visit's dispatch; `vararg`/`kwarg` carry the already-extracted
identifier (do_arguments reduces both representations to a plain name). -/
inductive Ast where
  | Module (body : List Ast)
  | ClassDef (lineno : Nat) (name : String) (bases : List Ast) (body : List Ast)
  | FunctionDef (lineno : Nat) (name : String) (fargs : List Ast)
      (vararg : Option String) (kwarg : Option String) (defaults : List Ast)
      (body : List Ast) (decorator_list : List Ast)
  | If (lineno : Nat) (test : Ast) (body : List Ast) (orelse : List Ast)
  | For (lineno : Nat) (target : Ast) (iter : Ast) (body : List Ast) (orelse : List Ast)
  | While (lineno : Nat) (test : Ast) (body : List Ast) (orelse : List Ast)
  | Try (lineno : Nat) (body : List Ast) (handlers : List Ast)
      (orelse : List Ast) (finalbody : List Ast)
  | ExceptHandler (lineno : Nat) (etype : Option Ast) (ename : Option String)
      (body : List Ast)
  | With (lineno : Nat) (optional_vars : List Ast) (body : List Ast)
  | ExprStmt (lineno : Nat) (value : Ast)
  | Return (lineno : Nat) (value : Option Ast)
  | Pass (lineno : Nat)
  | Assign (lineno : Nat) (targets : List Ast) (value : Ast)
  | Str (lineno : Option Nat) (s : String)
  | Name (id : String)
  | Attribute (value : Ast) (attr : String)
  | Num (n : String)
  | BinOp (left : Ast) (op : String) (right : Ast)
  | BoolOp (op : String) (values : List Ast)
  | UnaryOp (op : String) (operand : Ast)
  | Compare (left : Ast) (ops : List String) (comparators : List Ast)
  | Arg (arg : String)

/-- The `getattr(node, 'lineno', None)` view of a node.  Statement nodes carry
their line number; the expression nodes of this fragment are only ever asked
for a lineno by the decorator loop's trailing_comment call, which this
embedding models as the lineno-less fallback. -/
def linenoOf : Ast → Option Nat
  | .Module _ => none
  | .ClassDef l _ _ _ => some l
  | .FunctionDef l _ _ _ _ _ _ _ => some l
  | .If l _ _ _ => some l
  | .For l _ _ _ _ => some l
  | .While l _ _ _ => some l
  | .Try l _ _ _ _ => some l
  | .ExceptHandler l _ _ _ => some l
  | .With l _ _ => some l
  | .ExprStmt l _ => some l
  | .Return l _ => some l
  | .Pass l => some l
  | .Assign l _ _ => some l
  | .Str l? _ => l?
  | .Name _ => none
  | .Attribute _ _ => none
  | .Num _ => none
  | .BinOp _ _ _ => none
  | .BoolOp _ _ => none
  | .UnaryOp _ _ => none
  | .Compare _ _ _ => none
  | .Arg _ => none

/-- The immutable token indices the render pass reads: `self.ignored_lines`
and `self.line_tokens` (built once by the TokenSync constructor). -/
structure TEnv where
  ignored_lines : List (Option Tok)
  line_tokens : List (List Tok)

/-- The mutable state of one render pass: `self.level` and
`self.class_stack` of the traverser (the stack top is the list head), plus
TokenSync's `self.first_leading_line` watermark and `self.string_tokens`
per-line queues, and the accumulated diagnostics. -/
structure TState where
  level : Int
  class_stack : List String
  first_leading_line : Nat
  string_tokens : List (List Tok)
  log : List LogMsg

/-- CoffeeScriptTraverser.indent: strip leading newlines from `s`, then emit
them, the indent (four spaces per level, empty for a non-positive level, as
Python's string repetition), and the rest. -/
def indent (level : Int) (s : String) : String :=
  let cs := s.data
  let n := (cs.takeWhile (fun c => c == '\n')).length
  String.mk (List.replicate n '\n' ++ List.replicate (4 * level).toNat ' ' ++ cs.drop n)

/-- TokenSync.leading_lines on a node: nothing happens without a lineno;
otherwise the watermark-driven collection `leading_lines_at`. -/
def st_leading_lines (env : TEnv) (lineno : Option Nat) (st : TState) :
    List String × TState :=
  match lineno with
  | none => ([], st)
  | some L =>
    let p := leading_lines_at env.ignored_lines st.first_leading_line L
    (p.1, { st with first_leading_line := p.2 })

/-- TokenSync.leading_string: `''.join(self.leading_lines(node))`. -/
def st_leading_string (env : TEnv) (lineno : Option Nat) (st : TState) :
    String × TState :=
  let p := st_leading_lines env lineno st
  (pyJoin "" p.1, p.2)

/-- TokenSync.sync_string: pop the front of the node's line's string-token
queue and return that token's exact text (`t2`); on underflow, trace a
diagnostic and fall back to the AST's own literal value. -/
def sync_string (st : TState) (lineno : Nat) (fallback : String) : String × TState :=
  match st.string_tokens.getD (lineno - 1) [] with
  | token :: rest =>
    (token.val, { st with string_tokens := st.string_tokens.set (lineno - 1) rest })
  | [] =>
    (fallback, { st with log := st.log ++ [LogMsg.strUnderflow lineno fallback] })

/-- do_arguments, after its child visits: pair the tail of the positional
parameters with the defaults, then append the starred forms (skipped for a
falsy, i.e. empty, name). -/
def do_arguments_fmt (args defaults : List String)
    (vararg kwarg : Option String) : String :=
  let n_plain := args.length - defaults.length
  let args2 := (List.range args.length).map
    (fun i =>
      if i < n_plain then args.getD i ""
      else args.getD i "" ++ "=" ++ defaults.getD (i - n_plain) "")
  let args3 := args2 ++
    (match vararg with
     | some v => if v == "" then [] else ["*" ++ v]
     | none => [])
  let args4 := args3 ++
    (match kwarg with
     | some v => if v == "" then [] else ["**" ++ v]
     | none => [])
  pyJoin "," args4

mutual

/-- CoffeeScriptTraverser.visit with the per-kind `do_*` rules as match arms,
in the source's order of effects.  Compound statements raise `level` by one
around each nested-body child (`visitBody`); do_ClassDef pushes onto
`class_stack` around its body; statement rules recover leading lines and the
trailing comment exactly where the source does. -/
def visit (env : TEnv) (node : Ast) (st : TState) : String × TState :=
  match node with
  | .Module body =>
    let (bs, st1) := visitList env body st
    (pyJoin "" bs, st1)
  | .ClassDef lineno name bases body =>
    let (result, st1) := st_leading_lines env (some lineno) st
    let tail := trailing_comment env.line_tokens (some lineno)
    let (basesR, st2) := visitList env bases st1
    let s :=
      if basesR.isEmpty then "class " ++ name
      else "class " ++ name ++ " extends " ++ pyJoin ", " basesR
    let item := indent st2.level (s ++ tail)
    let st3 := { st2 with class_stack := name :: st2.class_stack }
    let (bodyR, st4) := visitBody env body st3
    let st5 := { st4 with class_stack := st4.class_stack.tail }
    (pyJoin "" (result ++ [item] ++ bodyR), st5)
  | .FunctionDef lineno name fargs vararg kwarg defaults body decorator_list =>
    let (result, st1) := st_leading_lines env (some lineno) st
    let (decs, st2) := visitDecorators env decorator_list st1
    let (argsR, st3) := visitList env fargs st2
    let (defsR, st4) := visitList env defaults st3
    let argStr := do_arguments_fmt argsR defsR vararg kwarg
    let args1 := (pySplitComma argStr).map pyStrip
    let args2 :=
      if !st4.class_stack.isEmpty && args1.head? == some "@" then args1.tail
      else args1
    let argsJ := pyJoin ", " args2
    let argsS := if argsJ == "" then "" else "(" ++ argsJ ++ ") "
    let tail := trailing_comment env.line_tokens (some lineno)
    let sep := if st4.class_stack.isEmpty then " = " else ": "
    let item := indent st4.level (name ++ sep ++ argsS ++ "->" ++ tail)
    let (bodyR, st5) := visitBody env body st4
    (pyJoin "" (result ++ decs ++ [item] ++ bodyR), st5)
  | .If lineno test body orelse =>
    let (result, st1) := st_leading_lines env (some lineno) st
    let tail := trailing_comment env.line_tokens (some lineno)
    let (t, st2) := visit env test st1
    let item := indent st2.level ("if " ++ t ++ ":" ++ tail)
    let (bodyR, st3) := visitBody env body st2
    if orelse.isEmpty then (pyJoin "" (result ++ [item] ++ bodyR), st3)
    else
      let elseItem := indent st3.level "else:\n"
      let (orR, st4) := visitBody env orelse st3
      (pyJoin "" (result ++ [item] ++ bodyR ++ [elseItem] ++ orR), st4)
  | .For lineno target iter body orelse =>
    let (result, st1) := st_leading_lines env (some lineno) st
    let tail := trailing_comment env.line_tokens (some lineno)
    let (tg, st2) := visit env target st1
    let (it, st3) := visit env iter st2
    let item := indent st3.level ("for " ++ tg ++ " in " ++ it ++ ":" ++ tail)
    let (bodyR, st4) := visitBody env body st3
    if orelse.isEmpty then (pyJoin "" (result ++ [item] ++ bodyR), st4)
    else
      let elseItem := indent st4.level "else:\n"
      let (orR, st5) := visitBody env orelse st4
      (pyJoin "" (result ++ [item] ++ bodyR ++ [elseItem] ++ orR), st5)
  | .While lineno test body orelse =>
    let (result, st1) := st_leading_lines env (some lineno) st
    let tail := trailing_comment env.line_tokens (some lineno)
    let (t, st2) := visit env test st1
    let item := indent st2.level ("while " ++ t ++ ":" ++ tail)
    let (bodyR, st3) := visitBody env body st2
    if orelse.isEmpty then (pyJoin "" (result ++ [item] ++ bodyR), st3)
    else
      let tail2 := trailing_comment env.line_tokens (some lineno)
      let elseItem := indent st3.level ("else:" ++ tail2)
      let (orR, st4) := visitBody env orelse st3
      (pyJoin "" (result ++ [item] ++ bodyR ++ [elseItem] ++ orR), st4)
  | .Try lineno body handlers orelse finalbody =>
    let (result, st1) := st_leading_lines env (some lineno) st
    let tail := trailing_comment env.line_tokens (some lineno)
    let item := indent st1.level ("try" ++ tail)
    let (bodyR, st2) := visitBody env body st1
    let (hs, st3) := visitList env handlers st2
    let (orPart, st4) :=
      if orelse.isEmpty then ([], st3)
      else
        let tail2 := trailing_comment env.line_tokens none
        let ei := indent st3.level ("else:" ++ tail2)
        let (orR, st4') := visitBody env orelse st3
        (ei :: orR, st4')
    let (finPart, st5) :=
      if finalbody.isEmpty then ([], st4)
      else
        let tail3 := trailing_comment env.line_tokens none
        let fi := indent st4.level ("finally:" ++ tail3)
        let (fR, st5') := visitBody env finalbody st4
        (fi :: fR, st5')
    (pyJoin "" (result ++ [item] ++ bodyR ++ hs ++ orPart ++ finPart), st5)
  | .ExceptHandler lineno etype ename body =>
    let (result, st1) := st_leading_lines env (some lineno) st
    let tail := trailing_comment env.line_tokens (some lineno)
    let item := indent st1.level "except"
    let (typePart, st2) :=
      match etype with
      | some t =>
        let (ts, st2') := visit env t st1
        ([" " ++ ts], st2')
      | none => ([], st1)
    let namePart :=
      match ename with
      | some nm => if nm == "" then [] else [" as " ++ nm]
      | none => []
    let (bodyR, st3) := visitBody env body st2
    (pyJoin "" (result ++ [item] ++ typePart ++ namePart ++ [":" ++ tail] ++ bodyR), st3)
  | .With lineno optional_vars body =>
    let (result, st1) := st_leading_lines env (some lineno) st
    let tail := trailing_comment env.line_tokens (some lineno)
    let item := indent st1.level "with "
    let (vs, st2) := visitList env optional_vars st1
    let (bodyR, st3) := visitBody env body st2
    (pyJoin "" (result ++ [item] ++ [pyJoin "," vs] ++ [":" ++ tail] ++ bodyR ++ ["\n"]), st3)
  | .ExprStmt lineno value =>
    let (head, st1) := st_leading_string env (some lineno) st
    let tail := trailing_comment env.line_tokens (some lineno)
    let (v, st2) := visit env value st1
    (head ++ indent st2.level v ++ tail, st2)
  | .Return lineno value =>
    let (head, st1) := st_leading_string env (some lineno) st
    let tail := trailing_comment env.line_tokens (some lineno)
    match value with
    | some v =>
      let (vs, st2) := visit env v st1
      (head ++ indent st2.level ("return " ++ pyStrip vs) ++ tail, st2)
    | none => (head ++ indent st1.level "return" ++ tail, st1)
  | .Pass lineno =>
    let (head, st1) := st_leading_string env (some lineno) st
    let tail := trailing_comment env.line_tokens (some lineno)
    (head ++ indent st1.level "pass" ++ tail, st1)
  | .Assign lineno targets value =>
    let (head, st1) := st_leading_string env (some lineno) st
    let tail := trailing_comment env.line_tokens (some lineno)
    let (tg, st2) := visitList env targets st1
    let (v, st3) := visit env value st2
    (head ++ indent st3.level (pyJoin "=" tg ++ "=" ++ v) ++ tail, st3)
  | .Str lineno s =>
    match lineno with
    | some L => sync_string st L s
    | none => (s, { st with log := st.log ++ [LogMsg.strNoLineno s] })
  | .Name id => (if id == "self" then "@" else id, st)
  | .Attribute value attr =>
    let (v, st1) := visit env value st
    ((if v == "@" then "@" else v ++ ".") ++ attr, st1)
  | .Num n => (n, st)
  | .BinOp left op right =>
    let (l, st1) := visit env left st
    let (r, st2) := visit env right st1
    (l ++ op_name_str op ++ r, st2)
  | .BoolOp op values =>
    let (vs, st1) := visitList env values st
    (pyJoin (op_name_str op) vs, st1)
  | .UnaryOp op operand =>
    let (v, st1) := visit env operand st
    (op_name_str op ++ v, st1)
  | .Compare left ops comparators =>
    let (lt, st1) := visit env left st
    let opsR := ops.map op_name_str
    let (compsR, st2) := visitList env comparators st1
    if opsR.length == compsR.length then
      (pyJoin "" (lt :: List.zipWith (fun o c => o ++ c) opsR compsR), st2)
    else
      (pyJoin "" [lt],
       { st2 with log := st2.log ++ [LogMsg.compareMismatch opsR compsR] })
  | .Arg a => (a, st)

/-- Sequential child visits with plain state threading (list comprehensions
such as `[self.visit(z) for z in node.bases]`). -/
def visitList (env : TEnv) (l : List Ast) (st : TState) : List String × TState :=
  match l with
  | [] => ([], st)
  | z :: rest =>
    let (s, st1) := visit env z st
    let (ss, st2) := visitList env rest st1
    (s :: ss, st2)

/-- The nested-body loop of the compound statements:
`self.level += 1; result.append(self.visit(z)); self.level -= 1` per child. -/
def visitBody (env : TEnv) (l : List Ast) (st : TState) : List String × TState :=
  match l with
  | [] => ([], st)
  | z :: rest =>
    let st1 : TState := { st with level := st.level + 1 }
    let (s, st2) := visit env z st1
    let st3 : TState := { st2 with level := st2.level - 1 }
    let (ss, st4) := visitBody env rest st3
    (s :: ss, st4)

/-- The decorator loop of do_FunctionDef: for each decorator, its trailing
comment, then `'@' + visit(z)` rendered as an indented line. -/
def visitDecorators (env : TEnv) (l : List Ast) (st : TState) : List String × TState :=
  match l with
  | [] => ([], st)
  | z :: rest =>
    let tail := trailing_comment env.line_tokens (linenoOf z)
    let (v, st1) := visit env z st
    let item := indent st1.level ("@" ++ v ++ tail)
    let (ss, st2) := visitDecorators env rest st1
    (item :: ss, st2)

end

/-- A sequence of leading_lines calls at the given line numbers, threading the
watermark, collecting all emitted lines (the renderer performs exactly this
sequence when it visits statements in source order). -/
def run_leading (ig : List (Option Tok)) : List Nat → Nat → List String × Nat
  | [], w => ([], w)
  | L :: rest, w =>
    let p := leading_lines_at ig w L
    let q := run_leading ig rest p.2
    (p.1 ++ q.1, q.2)

/-- The compound constructs: class, function, if, for, while, try, with,
except-handler (the rules that render an indented nested body). -/
def isCompound : Ast → Bool
  | .ClassDef _ _ _ _ => true
  | .FunctionDef _ _ _ _ _ _ _ _ => true
  | .If _ _ _ _ => true
  | .For _ _ _ _ _ => true
  | .While _ _ _ _ => true
  | .Try _ _ _ _ _ => true
  | .ExceptHandler _ _ _ _ => true
  | .With _ _ _ => true
  | _ => false

/- Concrete fixtures used by counterexamples and witnesses. -/

/-- An environment with no tokens at all (an empty source file). -/
def env0 : TEnv := { ignored_lines := [], line_tokens := [] }

/-- The initial render state: level 0, no enclosing scope, watermark 0. -/
def st0 : TState :=
  { level := 0, class_stack := [], first_leading_line := 0, string_tokens := [], log := [] }

/-- A render state inside a class body (class_stack nonempty). -/
def stC : TState := { st0 with class_stack := ["C"] }

/-- A full-line comment token: its raw line starts with `#`. -/
def tokC : Tok :=
  { kind := "comment", val := "# hi", raw := "# hi   ", srow := 1, scol := 0, erow := 1, ecol := 4 }

/-- A trailing comment token: a comment whose raw line starts with code. -/
def tokT : Tok :=
  { kind := "comment", val := "# trail", raw := "x = 1 # trail", srow := 1, scol := 6,
    erow := 1, ecol := 13 }

/-- A string token carrying its exact source spelling in `val`. -/
def tokS : Tok :=
  { kind := "string", val := "r'a\\nb'", raw := "s = r'a\\nb'", srow := 1, scol := 4,
    erow := 1, ecol := 11 }

/-- A render state whose line-1 string queue holds `tokS`. -/
def stS : TState := { st0 with string_tokens := [[tokS]] }

/- Basic facts about the embedded Python string operations. -/

theorem mk_data (s : String) : String.mk s.data = s := rfl

theorem pyJoin_singleton (s : String) : pyJoin "" [s] = s := rfl

/- op_name: the table lookup and the vacuous strict assert. -/

theorem lookup_snd_mem :
    ∀ (l : List (String × String)) (k v : String), l.lookup k = some v → v ∈ l.map Prod.snd := by
  intro l
  induction l with
  | nil => intro k v h; simp [List.lookup] at h
  | cons p rest ih =>
    intro k v h
    obtain ⟨a, b⟩ := p
    rw [List.lookup_cons] at h
    cases hka : k == a with
    | true => rw [hka] at h; simp at h; simp [h]
    | false => rw [hka] at h; simp at h ⊢; exact Or.inr (by simpa using ih k v h)

theorem op_table_vals_ne_empty : ∀ v ∈ opTable.map Prod.snd, v ≠ "" := by decide

theorem placeholder_ne_empty (kind : String) : ("<" ++ kind ++ ">") ≠ "" := by
  intro h
  have hd := congrArg String.data h
  simp only [String.data_append] at hd
  simp at hd

/-- The strict-mode assert of op_name can never fire: the lookup's default is
the non-empty bracketed placeholder and every table entry is non-empty, so
`assert name, kind` always passes and op_name returns `op_name_str kind`. -/
theorem op_name_never_fails (strict : Bool) (kind : String) :
    op_name strict kind = some (op_name_str kind) := by
  unfold op_name op_name_str
  cases hl : opTable.lookup kind with
  | some v =>
    have hv : v ≠ "" := op_table_vals_ne_empty v (lookup_snd_mem opTable kind v hl)
    simp [beq_eq_false_iff_ne.mpr hv]
  | none =>
    simp [beq_eq_false_iff_ne.mpr (placeholder_ne_empty kind)]

/--
C1.  The claim states that an operator kind absent from the fixed table is
fatal in strict mode.  In the code, `d.get(kind, '<%s>' % kind)` always
produces a truthy (non-empty) string, so `assert name, kind` never raises:
strict mode also returns the bracketed placeholder.  This theorem evaluates
op_name at the failing input (kind "MatMult", absent from the table) in both
modes, and at in-table kinds, showing strict and non-strict mode agree and
in-table kinds render their exact declared spelling.
-/
theorem c1_op_name_strict_never_fatal :
    op_name true "MatMult" = some "<MatMult>"
    ∧ op_name false "MatMult" = some "<MatMult>"
    ∧ op_name true "Add" = some "+"
    ∧ op_name true "And" = some " and "
    ∧ op_name true "NotIn" = some " not in " := by
  decide

/--
C10.  For a node without a source line number, leading_lines returns the
empty list and leaves the watermark (and the whole state) unchanged, so
leading_string returns the empty string: no ignored lines are consumed.
-/
theorem c10_no_lineno_no_leading (env : TEnv) (st : TState) :
    st_leading_lines env none st = ([], st) ∧ st_leading_string env none st = ("", st) := by
  exact ⟨rfl, rfl⟩

/- Python strip lemmas: stripping on the right never changes the first
non-whitespace character. -/

theorem lstripL_nil_of_rstripL_nil : ∀ (l : List Char), rstripL l = [] → lstripL l = [] := by
  intro l
  induction l with
  | nil => intro _; rfl
  | cons c cs ih =>
    intro h
    simp only [rstripL] at h
    cases hr : (rstripL cs).isEmpty with
    | false => rw [hr] at h; simp at h
    | true =>
      rw [hr] at h
      simp only [if_true] at h
      cases hc : isPySpace c with
      | false => rw [hc] at h; simp at h
      | true =>
        have hcs : rstripL cs = [] := by
          cases hrr : rstripL cs with
          | nil => rfl
          | cons x xs => rw [hrr] at hr; simp at hr
        simp only [lstripL, List.dropWhile_cons, hc, if_true]
        exact ih hcs

theorem head_lstripL_rstripL :
    ∀ (l : List Char), (lstripL (rstripL l)).head? = (lstripL l).head? := by
  intro l
  induction l with
  | nil => rfl
  | cons c cs ih =>
    simp only [rstripL]
    cases hr : (rstripL cs).isEmpty with
    | true =>
      have hcs : rstripL cs = [] := by
        cases hrr : rstripL cs with
        | nil => rfl
        | cons x xs => rw [hrr] at hr; simp at hr
      simp only [if_true]
      cases hc : isPySpace c with
      | true =>
        have h1 : lstripL cs = [] := lstripL_nil_of_rstripL_nil cs hcs
        unfold lstripL at h1
        simp [lstripL, List.dropWhile_cons, hc, h1]
      | false =>
        simp [lstripL, List.dropWhile_cons, hc]
    | false =>
      simp only [Bool.false_eq_true, if_false]
      cases hc : isPySpace c with
      | true =>
        simp only [lstripL, List.dropWhile_cons, hc, if_true]
        exact ih
      | false =>
        simp [lstripL, List.dropWhile_cons, hc]

/-- The scan condition of trailing_comment (`raw_val.rstrip()` then
`.strip().startswith('#')`) tests exactly "comment token that is not a
full-line comment" in the sense of is_line_comment. -/
theorem trailing_pred_eq (t : Tok) :
    (t.kind == "comment" && !startsWithHash (pyStrip (pyRstrip t.raw)))
    = (t.kind == "comment" && !is_line_comment t) := by
  unfold is_line_comment
  cases hk : t.kind == "comment" with
  | false => simp [hk]
  | true =>
    simp only [hk, Bool.true_and]
    congr 1
    unfold startsWithHash pyStrip pyRstrip pyLstrip
    simp only [mk_data]
    rw [head_lstripL_rstripL (rstripL t.raw.data), head_lstripL_rstripL t.raw.data]

/--
C8.  For a node with a line number, the trailing-comment query returns
`" <text>\n"` when the node's line bucket holds a comment token that is not a
full-line comment (the text being that token's value, rstripped), and `"\n"`
when every comment token in the bucket is a full-line comment; in all cases
the returned string ends with a newline.
-/
theorem c8_trailing_comment (lt : List (List Tok)) (n : Nat) :
    ((∃ t ∈ lt.getD (n - 1) [], t.kind = "comment" ∧ is_line_comment t = false) →
      ∃ t ∈ lt.getD (n - 1) [], t.kind = "comment" ∧ is_line_comment t = false ∧
        trailing_comment lt (some n) = " " ++ pyRstrip t.val ++ "\n")
    ∧ ((∀ t ∈ lt.getD (n - 1) [], t.kind = "comment" → is_line_comment t = true) →
      trailing_comment lt (some n) = "\n")
    ∧ (trailing_comment lt (some n)).data.getLast? = some '\n' := by
  cases hf : (lt.getD (n - 1) []).find?
      (fun t => t.kind == "comment" && !startsWithHash (pyStrip (pyRstrip t.raw))) with
  | some t =>
    have hmem := List.mem_of_find?_eq_some hf
    have hp := List.find?_some hf
    rw [trailing_pred_eq] at hp
    simp only [Bool.and_eq_true, beq_iff_eq, Bool.not_eq_eq_eq_not, Bool.not_true] at hp
    refine ⟨fun _ => ⟨t, hmem, hp.1, hp.2, ?_⟩, fun hall => ?_, ?_⟩
    · simp only [trailing_comment, hf]
    · exact absurd (hall t hmem hp.1) (by simp [hp.2])
    · simp only [trailing_comment, hf]
      rw [String.data_append]
      exact List.getLast?_concat _
  | none =>
    rw [List.find?_eq_none] at hf
    refine ⟨fun ⟨t, hm, hk, hlc⟩ => ?_,
      fun _ => by simp only [trailing_comment]; rw [List.find?_eq_none.mpr hf], ?_⟩
    · have := hf t hm
      rw [trailing_pred_eq] at this
      simp [hk, hlc] at this
    · simp only [trailing_comment]
      rw [List.find?_eq_none.mpr hf]
      rfl

/-- Witness for C8 at a concrete bucket: a bucket holding only a full-line
comment token yields the bare newline. -/
theorem c8_trailing_comment_witness : trailing_comment [[tokC]] (some 1) = "\n" :=
  (c8_trailing_comment [[tokC]] 1).2.1 (by decide)

/- The leading-lines watermark development (C3). -/

theorem entries_in_nil_of_le {ig : List (Option Tok)} {w L : Nat} (h : L ≤ w) :
    entries_in ig w L = [] := by
  unfold entries_in
  rw [Nat.sub_eq_zero_of_le h]
  rfl

theorem entries_in_split (ig : List (Option Tok)) {w L M : Nat}
    (hwL : w ≤ L) (hLM : L ≤ M) :
    entries_in ig w L ++ entries_in ig L M = entries_in ig w M := by
  unfold entries_in
  rw [← List.filterMap_append]
  congr 1
  have h := List.range'_append w (L - w) (M - L) 1
  have h1 : w + 1 * (L - w) = L := by omega
  have h2 : M - L + (L - w) = M - w := by omega
  rw [h1, h2] at h
  exact h

theorem entries_in_combine (ig : List (Option Tok)) {w L M : Nat} (hLM : L ≤ M) :
    entries_in ig w L ++ entries_in ig (max w L) M = entries_in ig w M := by
  rcases Nat.le_total w L with h | h
  · rw [Nat.max_eq_right h]
    exact entries_in_split ig h hLM
  · rw [Nat.max_eq_left h, entries_in_nil_of_le h, List.nil_append]

theorem getD_eq_none_of_lt_first_leading :
    ∀ (ig : List (Option Tok)) (i : Nat), i < first_leading_line_of ig →
      ig.getD i none = none := by
  intro ig
  induction ig with
  | nil => intro i _; rfl
  | cons o rest ih =>
    intro i h
    unfold first_leading_line_of at h
    rw [List.findIdx_cons] at h
    cases ho : o.isSome with
    | true => rw [ho] at h; simp at h
    | false =>
      rw [ho] at h
      simp only [cond_false] at h
      cases i with
      | zero =>
        cases o with
        | none => rfl
        | some x => simp at ho
      | succ i' =>
        have : i' < first_leading_line_of rest := by
          unfold first_leading_line_of; omega
        simpa using ih i' this

theorem entries_in_from_zero (ig : List (Option Tok)) (L : Nat) :
    entries_in ig 0 L = entries_in ig (first_leading_line_of ig) L := by
  rcases Nat.le_total (first_leading_line_of ig) L with h | h
  · have hz : entries_in ig 0 (first_leading_line_of ig) = [] := by
      unfold entries_in
      rw [List.filterMap_eq_nil_iff]
      intro a ha
      have hlt := (List.mem_range'_1.mp ha).2
      rw [getD_eq_none_of_lt_first_leading ig a (by omega)]
      rfl
    have := entries_in_combine ig (w := 0) (L := first_leading_line_of ig) (M := L) h
    rw [hz, List.nil_append, Nat.max_eq_right (Nat.zero_le _)] at this
    exact this.symm
  · rw [entries_in_nil_of_le h]
    unfold entries_in
    rw [List.filterMap_eq_nil_iff]
    intro a ha
    have hlt := (List.mem_range'_1.mp ha).2
    rw [getD_eq_none_of_lt_first_leading ig a (by omega)]
    rfl

theorem chain_head_le_getLast :
    ∀ (l : List Nat) (x y : Nat), List.Chain' (· < ·) (x :: l) →
      (x :: l).getLast? = some y → x ≤ y := by
  intro l
  induction l with
  | nil =>
    intro x y _ hla
    simp at hla
    omega
  | cons z rest ih =>
    intro x y hch hla
    rw [List.getLast?_cons_cons] at hla
    rw [List.chain'_cons] at hch
    have := ih z y hch.2 hla
    omega

theorem run_leading_eq (ig : List (Option Tok)) :
    ∀ (ls : List Nat) (w Lk : Nat), List.Chain' (· < ·) ls → ls.getLast? = some Lk →
      run_leading ig ls w = (entries_in ig w Lk, max w Lk) := by
  intro ls
  induction ls with
  | nil => intro w Lk _ hla; simp at hla
  | cons L rest ih =>
    intro w Lk hch hla
    cases rest with
    | nil =>
      simp only [List.getLast?_singleton, Option.some_inj] at hla
      subst hla
      simp [run_leading, leading_lines_at]
    | cons M rest' =>
      have hla' : (M :: rest').getLast? = some Lk := by
        rw [List.getLast?_cons_cons] at hla; exact hla
      have hch' := (List.chain'_cons.mp hch).2
      have hLLk : L ≤ Lk := chain_head_le_getLast (M :: rest') L Lk hch hla
      have hrun : run_leading ig (L :: M :: rest') w =
          (entries_in ig w L ++ (run_leading ig (M :: rest') (max w L)).1,
           (run_leading ig (M :: rest') (max w L)).2) := rfl
      rw [hrun, ih (max w L) Lk hch' hla']
      rw [entries_in_combine ig hLLk, Nat.max_assoc, Nat.max_eq_right hLLk]

/--
C3.  For leading-line recovery at strictly increasing line numbers
`ls = [L1, ..., Lk]`, starting from the freshly built watermark
(`first_leading_line_of`), the concatenation of all emitted leading lines
equals exactly the rendered ignored lines with index strictly below `Lk` —
each ignored line appears exactly once, since the left side is the
concatenation and the right side lists each qualifying index once.
Moreover a single leading_lines call never decreases the watermark.
-/
theorem c3_leading_lines_watermark (ig : List (Option Tok)) (ls : List Nat) (Lk : Nat)
    (hch : List.Chain' (· < ·) ls) (hla : ls.getLast? = some Lk) :
    (run_leading ig ls (first_leading_line_of ig)).1 = entries_in ig 0 Lk
    ∧ ∀ (w L : Nat), w ≤ (leading_lines_at ig w L).2 := by
  constructor
  · rw [run_leading_eq ig ls (first_leading_line_of ig) Lk hch hla]
    exact (entries_in_from_zero ig Lk).symm
  · intro w L
    exact Nat.le_max_left w L

/-- Witness for C3: two calls at lines 2 and 4 over a concrete ignored-line
index emit the full-line comment before line 2 and the blank line before
line 4, exactly once each. -/
theorem c3_leading_lines_watermark_witness :
    (run_leading [some tokC, none, some nl_token] [2, 4]
      (first_leading_line_of [some tokC, none, some nl_token])).1 = ["# hi\n", "\n"] := by
  have h := (c3_leading_lines_watermark [some tokC, none, some nl_token] [2, 4] 4
    (by rw [List.chain'_cons]; exact ⟨by omega, List.chain'_singleton _⟩) (by decide)).1
  rw [h]
  decide

/- The string-token queue development (C4, C5).  The first unfolding of
`visit` generates its equation lemmas, which needs a larger heartbeat
budget. -/

set_option maxHeartbeats 2000000

theorem make_line_tokens_fold_bucket :
    ∀ (tokens : List Tok) (init : List (List Tok)) (i : Nat),
      (∀ t ∈ tokens, bucket_of t < init.length) → i < init.length →
      (tokens.foldl
        (fun result token =>
          result.set (bucket_of token) (result.getD (bucket_of token) [] ++ [token]))
        init).getD i []
        = init.getD i [] ++ tokens.filter (fun t => bucket_of t == i) := by
  intro tokens
  induction tokens with
  | nil => intro init i _ _; simp
  | cons t rest ih =>
    intro init i hbound hi
    simp only [List.foldl_cons]
    rw [ih (init.set (bucket_of t) (init.getD (bucket_of t) [] ++ [t])) i
      (fun u hu => by rw [List.length_set]; exact hbound u (List.mem_cons_of_mem t hu))
      (by rw [List.length_set]; exact hi)]
    by_cases hbt : bucket_of t = i
    · have hlt : bucket_of t < init.length := hbound t (List.mem_cons_self t rest)
      rw [List.getD_eq_getElem?_getD, hbt, List.getElem?_set_self (hbt ▸ hlt)]
      simp only [Option.getD_some, List.filter_cons, hbt, beq_self_eq_true, if_true]
      rw [List.getD_eq_getElem?_getD, List.append_assoc, List.singleton_append]
    · rw [List.getD_eq_getElem?_getD, List.getElem?_set_ne hbt,
        ← List.getD_eq_getElem?_getD]
      simp only [List.filter_cons]
      rw [if_neg (by simp [hbt])]

/--
C4.  A string-literal node on line L whose per-line queue is non-empty
renders as the exact original token spelling (the queued token's `t2` text,
verbatim), popping that token; and make_line_tokens assigns every token of
the stream to exactly the bucket `bucket_of` prescribes — end-row−1 for kind
"string", start-row−1 otherwise — so bucket i holds precisely the stream
tokens whose assigned bucket is i, in stream order.
-/
theorem c4_string_literal_verbatim :
    (∀ (env : TEnv) (st : TState) (L : Nat) (s : String) (t : Tok) (rest : List Tok),
      st.string_tokens.getD (L - 1) [] = t :: rest →
      visit env (.Str (some L) s) st =
        (t.val, { st with string_tokens := st.string_tokens.set (L - 1) rest }))
    ∧ (∀ (lines : List String) (tokens : List Tok) (i : Nat),
      (∀ t ∈ tokens, bucket_of t < lines.length + 1) → i < lines.length + 1 →
      (make_line_tokens lines tokens).getD i []
        = tokens.filter (fun t => bucket_of t == i)) := by
  constructor
  · intro env st L s t rest h
    simp only [visit, sync_string, h]
  · intro lines tokens i hbound hi
    unfold make_line_tokens
    rw [make_line_tokens_fold_bucket tokens (List.replicate (lines.length + 1) []) i
      (by simpa using hbound) (by simpa using hi)]
    simp

/-- Witness for C4: a queue holding the raw-string token renders its exact
spelling, and a concrete two-token stream lands in the prescribed buckets. -/
theorem c4_string_literal_verbatim_witness :
    visit env0 (.Str (some 1) "a\nb") stS =
      ("r'a\\nb'", { stS with string_tokens := [[]] })
    ∧ (make_line_tokens ["s = r'a\\nb'"] [tokS, tokT]).getD 0 [] = [tokS, tokT] := by
  constructor
  · exact c4_string_literal_verbatim.1 env0 stS 1 "a\nb" tokS [] (by decide)
  · have h := c4_string_literal_verbatim.2 ["s = r'a\\nb'"] [tokS, tokT] 0
      (by decide) (by decide)
    rw [h]
    decide

/--
C5.  A string-literal node on a line whose string-token queue is empty is
rendered recoverably: the result is the AST node's own literal value (and a
diagnostic is traced), the queues are untouched; when the queue is
non-empty, the call pops exactly one token from the front of that line's
FIFO queue.
-/
theorem c5_string_queue_underflow :
    (∀ (env : TEnv) (st : TState) (L : Nat) (s : String),
      st.string_tokens.getD (L - 1) [] = [] →
      visit env (.Str (some L) s) st =
        (s, { st with log := st.log ++ [LogMsg.strUnderflow L s] }))
    ∧ (∀ (env : TEnv) (st : TState) (L : Nat) (s : String) (t : Tok) (rest : List Tok),
      st.string_tokens.getD (L - 1) [] = t :: rest →
      ((visit env (.Str (some L) s) st).2).string_tokens
        = st.string_tokens.set (L - 1) rest) := by
  constructor
  · intro env st L s h
    simp only [visit, sync_string, h]
  · intro env st L s t rest h
    simp only [visit, sync_string, h]

/-- Witness for C5: an empty queue falls back to the node's own literal. -/
theorem c5_string_queue_underflow_witness :
    visit env0 (.Str (some 1) "lit") st0 =
      ("lit", { st0 with log := [LogMsg.strUnderflow 1 "lit"] }) := by
  have h := c5_string_queue_underflow.1 env0 st0 1 "lit" (by decide)
  simpa using h

/- Indentation bookkeeping (C9): every rendering rule leaves `self.level`
exactly where it found it, because each nested-body child is wrapped in a
`level += 1` / `level -= 1` pair. -/

theorem st_leading_lines_level (env : TEnv) (l? : Option Nat) (st : TState) :
    ((st_leading_lines env l? st).2).level = st.level := by
  cases l? <;> simp [st_leading_lines]

theorem st_leading_string_level (env : TEnv) (l? : Option Nat) (st : TState) :
    ((st_leading_string env l? st).2).level = st.level := by
  simp [st_leading_string, st_leading_lines_level]

theorem sync_string_level (st : TState) (L : Nat) (s : String) :
    ((sync_string st L s).2).level = st.level := by
  unfold sync_string
  cases h : st.string_tokens.getD (L - 1) [] <;> simp [h]

mutual

theorem visit_level (env : TEnv) (node : Ast) (st : TState) :
    ((visit env node st).2).level = st.level := by
  cases node with
  | Module body =>
    simp only [visit]
    exact visitList_level env body st
  | ClassDef lineno name bases body =>
    simp only [visit]
    simp only [visit_level, visitList_level, visitBody_level, visitDecorators_level,
      st_leading_lines_level, st_leading_string_level, sync_string_level]
  | FunctionDef lineno name fargs vararg kwarg defaults body decorator_list =>
    simp only [visit]
    simp only [visit_level, visitList_level, visitBody_level, visitDecorators_level,
      st_leading_lines_level, st_leading_string_level, sync_string_level]
  | If lineno test body orelse =>
    simp only [visit]
    split <;>
      simp only [visit_level, visitList_level, visitBody_level, visitDecorators_level,
        st_leading_lines_level, st_leading_string_level, sync_string_level]
  | For lineno target iter body orelse =>
    simp only [visit]
    split <;>
      simp only [visit_level, visitList_level, visitBody_level, visitDecorators_level,
        st_leading_lines_level, st_leading_string_level, sync_string_level]
  | While lineno test body orelse =>
    simp only [visit]
    split <;>
      simp only [visit_level, visitList_level, visitBody_level, visitDecorators_level,
        st_leading_lines_level, st_leading_string_level, sync_string_level]
  | Try lineno body handlers orelse finalbody =>
    simp only [visit]
    split <;> split <;>
      simp only [visit_level, visitList_level, visitBody_level, visitDecorators_level,
        st_leading_lines_level, st_leading_string_level, sync_string_level]
  | ExceptHandler lineno etype ename body =>
    cases etype with
    | none =>
      simp only [visit]
      simp only [visit_level, visitList_level, visitBody_level, visitDecorators_level,
        st_leading_lines_level, st_leading_string_level, sync_string_level]
    | some t =>
      simp only [visit]
      simp only [visit_level, visitList_level, visitBody_level, visitDecorators_level,
        st_leading_lines_level, st_leading_string_level, sync_string_level]
  | With lineno optional_vars body =>
    simp only [visit]
    simp only [visit_level, visitList_level, visitBody_level, visitDecorators_level,
      st_leading_lines_level, st_leading_string_level, sync_string_level]
  | ExprStmt lineno value =>
    simp only [visit]
    simp only [visit_level, visitList_level, visitBody_level, visitDecorators_level,
      st_leading_lines_level, st_leading_string_level, sync_string_level]
  | Return lineno value =>
    cases value with
    | none =>
      simp only [visit]
      simp only [visit_level, visitList_level, visitBody_level, visitDecorators_level,
        st_leading_lines_level, st_leading_string_level, sync_string_level]
    | some v =>
      simp only [visit]
      simp only [visit_level, visitList_level, visitBody_level, visitDecorators_level,
        st_leading_lines_level, st_leading_string_level, sync_string_level]
  | Pass lineno =>
    simp only [visit]
    simp only [visit_level, visitList_level, visitBody_level, visitDecorators_level,
      st_leading_lines_level, st_leading_string_level, sync_string_level]
  | Assign lineno targets value =>
    simp only [visit]
    simp only [visit_level, visitList_level, visitBody_level, visitDecorators_level,
      st_leading_lines_level, st_leading_string_level, sync_string_level]
  | Str lineno s =>
    cases lineno with
    | none => simp only [visit]
    | some L =>
      simp only [visit]
      exact sync_string_level st L s
  | Name id => simp only [visit]
  | Attribute value attr =>
    simp only [visit]
    exact visit_level env value st
  | Num n => simp only [visit]
  | BinOp left op right =>
    simp only [visit]
    simp only [visit_level, visitList_level, visitBody_level, visitDecorators_level,
      st_leading_lines_level, st_leading_string_level, sync_string_level]
  | BoolOp op values =>
    simp only [visit]
    exact visitList_level env values st
  | UnaryOp op operand =>
    simp only [visit]
    exact visit_level env operand st
  | Compare left ops comparators =>
    simp only [visit]
    split <;>
      simp only [visit_level, visitList_level, visitBody_level, visitDecorators_level,
        st_leading_lines_level, st_leading_string_level, sync_string_level]
  | Arg a => simp only [visit]

theorem visitList_level (env : TEnv) (l : List Ast) (st : TState) :
    ((visitList env l st).2).level = st.level := by
  cases l with
  | nil => simp [visitList]
  | cons z rest =>
    simp only [visitList]
    simp only [visit_level, visitList_level]

theorem visitBody_level (env : TEnv) (l : List Ast) (st : TState) :
    ((visitBody env l st).2).level = st.level := by
  cases l with
  | nil => simp [visitBody]
  | cons z rest =>
    simp only [visitBody]
    simp only [visit_level, visitBody_level]
    omega

theorem visitDecorators_level (env : TEnv) (l : List Ast) (st : TState) :
    ((visitDecorators env l st).2).level = st.level := by
  cases l with
  | nil => simp [visitDecorators]
  | cons z rest =>
    simp only [visitDecorators]
    simp only [visit_level, visitDecorators_level]

end

/--
C9.  Rendering any compound construct (class, function, if, for, while, try,
with, except-handler) restores indent_level to its value before entry: the
renderer raises it by one around each nested-body child and lowers it again,
so the post-state level equals the pre-state level.
-/
theorem c9_indent_level_restored (env : TEnv) (node : Ast) (st : TState)
    (_hc : isCompound node = true) : ((visit env node st).2).level = st.level :=
  visit_level env node st

/-- Witness for C9 at a concrete compound construct. -/
theorem c9_indent_level_restored_witness :
    ((visit env0 (.If 1 (.Name "x") [.Pass 2] [.Pass 4]) st0).2).level = st0.level :=
  c9_indent_level_restored env0 (.If 1 (.Name "x") [.Pass 2] [.Pass 4]) st0 (by decide)

/- The comparison-chain development (C2). -/

theorem visitList_fst_length (env : TEnv) :
    ∀ (l : List Ast) (st : TState), ((visitList env l st).1).length = l.length := by
  intro l
  induction l with
  | nil => intro st; rfl
  | cons z rest ih =>
    intro st
    simp only [visitList, List.length_cons]
    rw [ih]

/--
C2 counterexample.  The claim says a comparison chain with mismatched
operator/comparator counts still renders the comparator texts.  At the
concrete mismatched node `Compare(left=Name a, ops=[], comparators=[Name b])`
(0 operators, 1 comparator) the rendering is exactly "a": the comparator text
"b" does not occur in the result at all.
-/
theorem c2_counterexample :
    (visit env0 (.Compare (.Name "a") [] [.Name "b"]) st0).1 = "a"
    ∧ ¬ ('b' ∈ ((visit env0 (.Compare (.Name "a") [] [.Name "b"]) st0).1).data) := by
  decide

/--
C2 amended.  For a comparison chain whose operator count differs from its
comparator count, rendering is recoverable (the render function is total and
takes the diagnostic branch): a `can not happen` diagnostic is logged with
the operator spellings and the rendered comparators, and the result is the
left operand's rendering alone — the comparators and operators are omitted
from the output.
-/
theorem c2_amended (env : TEnv) (st : TState) (left : Ast) (ops : List String)
    (comparators : List Ast) (h : ops.length ≠ comparators.length) :
    (visit env (.Compare left ops comparators) st).1 = (visit env left st).1
    ∧ ((visit env (.Compare left ops comparators) st).2).log
      = ((visitList env comparators (visit env left st).2).2).log
        ++ [LogMsg.compareMismatch (ops.map op_name_str)
            ((visitList env comparators (visit env left st).2).1)] := by
  have hlen : ((ops.map op_name_str).length
      == ((visitList env comparators (visit env left st).2).1).length) = false := by
    rw [List.length_map, visitList_fst_length]
    exact beq_eq_false_iff_ne.mpr h
  constructor
  · simp only [visit, hlen, Bool.false_eq_true, if_false]
    exact pyJoin_singleton _
  · simp only [visit, hlen, Bool.false_eq_true, if_false]

/-- Witness for C2 amended at the concrete mismatched chain. -/
theorem c2_amended_witness :
    (visit env0 (.Compare (.Name "a") [] [.Name "b"]) st0).1
      = (visit env0 (.Name "a") st0).1 := by
  exact (c2_amended env0 st0 (.Name "a") [] [.Name "b"] (by decide)).1

/- The receiver-sigil development (C6). -/

/--
C6 counterexample.  The claim says the `self` rewrite happens only inside a
type/function scope.  In the code, do_Name rewrites unconditionally: with an
empty class_stack (no enclosing scope at all), `Name("self")` still renders
as the receiver sigil "@", not as "self".
-/
theorem c6_counterexample :
    st0.class_stack = []
    ∧ (visit env0 (.Name "self") st0).1 = "@"
    ∧ (visit env0 (.Name "self") st0).1 ≠ "self" := by
  decide

/--
C6 amended.  A bare `self` identifier, and any attribute access rooted at it,
is rewritten using the receiver sigil `@` unconditionally — in every state,
whatever the scope stack holds — while any other identifier is rendered
unchanged.
-/
theorem c6_amended (env : TEnv) (st : TState) (id attr : String) :
    visit env (.Name "self") st = ("@", st)
    ∧ (id ≠ "self" → visit env (.Name id) st = (id, st))
    ∧ visit env (.Attribute (.Name "self") attr) st = ("@" ++ attr, st) := by
  refine ⟨by simp [visit], fun h => ?_, by simp [visit]⟩
  simp [visit, h]

/-- Witness for C6 amended: a non-self identifier is left unchanged. -/
theorem c6_amended_witness : visit env0 (.Name "x") st0 = ("x", st0) :=
  (c6_amended env0 st0 "x" "y").2.1 (by decide)

/- Split/join roundtrip lemmas for the parameter-list pipeline (C7). -/

theorem splitCommaL_no_comma : ∀ (l : List Char), ',' ∉ l → splitCommaL l = [l] := by
  intro l
  induction l with
  | nil => intro _; rfl
  | cons c cs ih =>
    intro h
    have hc : (c == ',') = false :=
      beq_eq_false_iff_ne.mpr (fun he => h (he ▸ List.mem_cons_self c cs))
    have hcs : ',' ∉ cs := fun hm => h (List.mem_cons_of_mem c hm)
    simp only [splitCommaL, hc, Bool.false_eq_true, if_false, ih hcs]

theorem splitCommaL_append :
    ∀ (x t : List Char), ',' ∉ x → splitCommaL (x ++ ',' :: t) = x :: splitCommaL t := by
  intro x
  induction x with
  | nil =>
    intro t _
    simp [splitCommaL]
  | cons c x' ih =>
    intro t h
    have hc : (c == ',') = false :=
      beq_eq_false_iff_ne.mpr (fun he => h (he ▸ List.mem_cons_self c x'))
    have hx' : ',' ∉ x' := fun hm => h (List.mem_cons_of_mem c hm)
    simp only [List.cons_append, splitCommaL, hc, Bool.false_eq_true, if_false,
      List.append_eq]
    rw [ih t hx']

theorem joinSepL_comma_split :
    ∀ (parts : List (List Char)), parts ≠ [] → (∀ p ∈ parts, ',' ∉ p) →
      splitCommaL (joinSepL [','] parts) = parts := by
  intro parts
  induction parts with
  | nil => intro h _; exact absurd rfl h
  | cons x rest ih =>
    intro _ hcf
    cases rest with
    | nil =>
      simp only [joinSepL]
      exact splitCommaL_no_comma x (hcf x (List.mem_cons_self x []))
    | cons y rest' =>
      have hx : ',' ∉ x := hcf x (List.mem_cons_self x (y :: rest'))
      have hrest : ∀ p ∈ y :: rest', ',' ∉ p := fun p hp => hcf p (List.mem_cons_of_mem x hp)
      show splitCommaL (x ++ [','] ++ joinSepL [','] (y :: rest')) = x :: y :: rest'
      rw [List.append_assoc, List.singleton_append, splitCommaL_append x _ hx,
        ih (by simp) hrest]

theorem pySplitComma_pyJoin (parts : List String) (h1 : parts ≠ [])
    (h2 : ∀ p ∈ parts, ',' ∉ p.data) :
    pySplitComma (pyJoin "," parts) = parts := by
  unfold pySplitComma pyJoin
  have hdata : (String.mk (joinSepL (",".data) (parts.map String.data))).data
      = joinSepL [','] (parts.map String.data) := rfl
  rw [hdata, joinSepL_comma_split (parts.map String.data)
    (by simpa using h1)
    (by intro p hp; obtain ⟨q, hq, rfl⟩ := List.mem_map.mp hp; exact h2 q hq)]
  rw [List.map_map]
  exact (List.map_congr_left fun a _ => rfl).trans (List.map_id parts)

theorem map_getD_range :
    ∀ (l : List String), (List.range l.length).map (fun i => l.getD i "") = l := by
  intro l
  induction l with
  | nil => rfl
  | cons x xs ih =>
    rw [List.length_cons, List.range_succ_eq_map, List.map_cons, List.map_map]
    have h2 : List.map ((fun i => (x :: xs).getD i "") ∘ Nat.succ) (List.range xs.length)
        = List.map (fun i => xs.getD i "") (List.range xs.length) :=
      List.map_congr_left (fun a _ => by simp [List.getD_cons_succ])
    rw [h2, ih]
    rfl

theorem do_arguments_fmt_plain (args : List String) :
    do_arguments_fmt args [] none none = pyJoin "," args := by
  unfold do_arguments_fmt
  simp only [List.length_nil, Nat.sub_zero, List.append_nil]
  rw [List.map_congr_left (fun a ha => by rw [if_pos (List.mem_range.mp ha)]),
    map_getD_range args]

theorem visitList_map_name (env : TEnv) :
    ∀ (ids : List String) (st : TState),
      visitList env (ids.map .Name) st
        = (ids.map (fun id => if id == "self" then "@" else id), st) := by
  intro ids
  induction ids with
  | nil => intro st; rfl
  | cons x xs ih =>
    intro st
    simp only [List.map_cons, visitList, visit]
    rw [ih st]

theorem st_leading_lines_class (env : TEnv) (l? : Option Nat) (st : TState) :
    ((st_leading_lines env l? st).2).class_stack = st.class_stack := by
  cases l? <;> simp [st_leading_lines]

/-- The rendering of a decorator-free, default-free function definition whose
receiver is a Python-2 style `Name "self"` followed by plain `Name`
parameters: the receiver is dropped from the parameter list exactly when the
class stack is non-empty, and the binder is a colon inside a class and an
assignment otherwise. -/
theorem c7_render_core (env : TEnv) (st : TState) (ln : Nat) (name : String)
    (ids : List String)
    (h : ∀ id ∈ ids, pyStrip id = id ∧ ',' ∉ id.data ∧ id ≠ "self") :
    visit env (.FunctionDef ln name (.Name "self" :: ids.map .Name) none none [] [] []) st
      = (pyJoin "" ((st_leading_lines env (some ln) st).1
          ++ [indent st.level (name
              ++ (if st.class_stack.isEmpty then " = " else ": ")
              ++ (if pyJoin ", " (if st.class_stack.isEmpty then "@" :: ids else ids) == ""
                  then ""
                  else "(" ++ pyJoin ", " (if st.class_stack.isEmpty then "@" :: ids else ids)
                    ++ ") ")
              ++ "->" ++ trailing_comment env.line_tokens (some ln))]),
         (st_leading_lines env (some ln) st).2) := by
  have hmapids : ids.map (fun id => if id == "self" then "@" else id) = ids :=
    (List.map_congr_left fun a ha => by simp [(h a ha).2.2]).trans (List.map_id ids)
  have hsplit : (pySplitComma (pyJoin "," ("@" :: ids))).map pyStrip = "@" :: ids := by
    rw [pySplitComma_pyJoin ("@" :: ids) (by simp)
      (by
        intro p hp
        rcases List.mem_cons.mp hp with rfl | hp'
        · decide
        · exact (h p hp').2.1)]
    simp only [List.map_cons]
    rw [show pyStrip "@" = "@" from rfl]
    congr 1
    exact (List.map_congr_left fun a ha => (h a ha).1).trans (List.map_id ids)
  simp only [visit, visitDecorators, visitList, visitBody]
  simp only [visitList_map_name, hmapids, beq_self_eq_true, if_true]
  rw [do_arguments_fmt_plain]
  simp only [hsplit]
  simp only [st_leading_lines_class, st_leading_lines_level]
  cases hb : st.class_stack.isEmpty with
  | true =>
    simp only [hb, Bool.not_true, Bool.false_and, Bool.false_eq_true, if_false, if_true,
      List.append_nil, List.nil_append]
  | false =>
    simp only [hb, Bool.not_false, Bool.true_and, List.head?_cons, beq_self_eq_true,
      if_true, List.tail_cons, Bool.false_eq_true, if_false,
      List.append_nil, List.nil_append]

/--
C7 counterexample.  The claim says a method's first (receiver) parameter is
dropped inside a type-definition scope.  With Python-3 `ast.arg` parameters
(rendered by do_arg as the bare name), a method `def m(self, x)` inside a
class renders as `m: (self, x) ->` — the receiver parameter is kept, because
the drop only triggers when the first rendered parameter equals the sigil
`@`, which an `arg` node named `self` never produces.
-/
theorem c7_counterexample :
    (visit env0 (.FunctionDef 1 "m" [.Arg "self", .Arg "x"] none none [] [] []) stC).1
      = "m: (self, x) ->\n"
    ∧ (visit env0 (.FunctionDef 1 "m" [.Arg "self", .Arg "x"] none none [] [] []) stC).1
      ≠ "m: (x) ->\n" := by
  decide

/--
C7 amended.  For a function definition whose first parameter renders as the
receiver sigil (a Python-2 style `Name "self"`), the rendered parameter list
drops that first parameter exactly when the enclosing class stack is
non-empty (the remaining parameters appear as given); outside a
type-definition scope the first parameter is kept, rendered as `@`.  The
header binds with a colon inside a type scope and with an assignment
operator otherwise.
-/
theorem c7_amended (env : TEnv) (st : TState) (ln : Nat) (name : String)
    (ids : List String)
    (h : ∀ id ∈ ids, pyStrip id = id ∧ ',' ∉ id.data ∧ id ≠ "self") :
    (st.class_stack ≠ [] →
      visit env (.FunctionDef ln name (.Name "self" :: ids.map .Name) none none [] [] []) st
        = (pyJoin "" ((st_leading_lines env (some ln) st).1
            ++ [indent st.level (name ++ ": "
                ++ (if pyJoin ", " ids == "" then "" else "(" ++ pyJoin ", " ids ++ ") ")
                ++ "->" ++ trailing_comment env.line_tokens (some ln))]),
           (st_leading_lines env (some ln) st).2))
    ∧ (st.class_stack = [] →
      visit env (.FunctionDef ln name (.Name "self" :: ids.map .Name) none none [] [] []) st
        = (pyJoin "" ((st_leading_lines env (some ln) st).1
            ++ [indent st.level (name ++ " = "
                ++ (if pyJoin ", " ("@" :: ids) == ""
                    then "" else "(" ++ pyJoin ", " ("@" :: ids) ++ ") ")
                ++ "->" ++ trailing_comment env.line_tokens (some ln))]),
           (st_leading_lines env (some ln) st).2)) := by
  have hcore := c7_render_core env st ln name ids h
  constructor
  · intro hcs
    have hb : st.class_stack.isEmpty = false := by
      cases hl : st.class_stack with
      | nil => exact absurd hl hcs
      | cons a l => rfl
    rw [hcore]
    simp only [hb, Bool.false_eq_true, if_false]
  · intro hcs
    have hb : st.class_stack.isEmpty = true := by rw [hcs]; rfl
    rw [hcore]
    simp only [hb, if_true]

/-- Witness for C7 amended: inside a class, `def m(self, x)` with Name-style
parameters renders as `m: (x) ->` — the receiver is dropped. -/
theorem c7_amended_witness :
    (visit env0 (.FunctionDef 1 "m" (.Name "self" :: ["x"].map .Name) none none [] [] [])
      stC).1 = "m: (x) ->\n" := by
  have happ := (c7_amended env0 stC 1 "m" ["x"] (by decide)).1 (by decide)
  rw [happ]
  decide

end PyCs
